import Mathlib

/-!
Verification development for the simple-crl-server repository (main.go).

The program is a small Go HTTP server that serves a signed Certificate
Revocation List.  Its core is a cache-and-regeneration manager:

* `getCRL` — double-checked locking around an in-memory cached artifact,
  regenerating it when it is absent or at least one hour old;
* `loadRevokedCertificates` — a line-oriented parser of the revocation
  registry that skips malformed lines;
* `saveCachedCRL` / `loadCachedCRL` — best-effort persistence of the
  artifact plus its metadata, and startup recovery of the newest fresh
  artifact;
* `loadCertAndKey` — CA credential loading that tries PKCS#8, PKCS#1 and
  EC key encodings in order.

This file shallowly embeds those functions.  Go strings and byte slices
become `List Char` (the data handled by the program is ASCII, where Go
bytes and runes coincide); timestamps become `Int` Unix seconds;
`time.Since t < cacheDuration` becomes `now - t < 3600`; fallible calls
return `Except`/`Option`.  External collaborators (the x509 encoder, the
crypto parsers, the filesystem) are supplied as explicit function-valued
parameters, so the manager's control flow is embedded exactly while the
collaborators stay abstract.  The `sync.RWMutex` serializes the read
sections and the write critical section of `getCRL`; concurrency is
embedded as an interleaving of atomic read-check and critical-section
events over a shared state, which is precisely the atomicity the lock
enforces.
-/

namespace CRL

/-- Go strings and byte slices, modelled as lists of characters. -/
abbrev Str := List Char

/-! ### Models of strconv / math-big numeral parsing and fmt printing -/

/-- Digit value of a character in the given base, as used by
`strconv.ParseInt` and `math/big.Int.SetString`: decimal digits, then
letters (case-insensitive) for bases above ten. -/
def digitInBase (base : Nat) (c : Char) : Option Nat :=
  let v : Option Nat :=
    if '0' ≤ c ∧ c ≤ '9' then some (c.toNat - 48)
    else if 'a' ≤ c ∧ c ≤ 'z' then some (c.toNat - 97 + 10)
    else if 'A' ≤ c ∧ c ≤ 'Z' then some (c.toNat - 65 + 10)
    else none
  match v with
  | some d => if d < base then some d else none
  | none => none

/-- Accumulating numeral scanner: fails on the first character that is not
a digit of the base. -/
def parseDigitsAux (base : Nat) (acc : Nat) : Str → Option Nat
  | [] => some acc
  | c :: cs =>
    match digitInBase base c with
    | some d => parseDigitsAux base (acc * base + d) cs
    | none => none

/-- A numeral is a nonempty run of digits of the base. -/
def parseDigits (base : Nat) (s : Str) : Option Nat :=
  match s with
  | [] => none
  | _ :: _ => parseDigitsAux base 0 s

/-- Model of `math/big.Int.SetString(s, base)` for an explicit base in
2..36: an optional leading sign followed by a nonempty digit run; no
underscores are accepted when the base is nonzero. -/
def goBigIntSetString (base : Nat) (s : Str) : Option Int :=
  match s with
  | [] => none
  | c :: rest =>
    if c = '+' then (parseDigits base rest).map (fun n => (n : Int))
    else if c = '-' then (parseDigits base rest).map (fun n => -(n : Int))
    else (parseDigits base (c :: rest)).map (fun n => (n : Int))

def int64Max : Int := 9223372036854775807

def int64Min : Int := -9223372036854775808

/-- Model of `strconv.ParseInt(s, 10, 64)`: same syntax as a base-10
`SetString`, plus the int64 range check (out-of-range input is an error). -/
def goParseInt64 (s : Str) : Option Int :=
  match goBigIntSetString 10 s with
  | none => none
  | some v => if int64Min ≤ v ∧ v ≤ int64Max then some v else none

/-- Model of `strconv.Atoi` on a 64-bit platform. -/
def goAtoi (s : Str) : Option Int := goParseInt64 s

/-- The character for a decimal digit. -/
def digitChar (d : Nat) : Char :=
  match d with
  | 0 => '0'
  | 1 => '1'
  | 2 => '2'
  | 3 => '3'
  | 4 => '4'
  | 5 => '5'
  | 6 => '6'
  | 7 => '7'
  | 8 => '8'
  | _ => '9'

/-- Decimal digit loop with structural fuel; fuel of at least `n` always
suffices because `n` shrinks by a factor of ten per digit. -/
def natDigitsRevFuel : Nat → Nat → List Char
  | 0, _ => []
  | _ + 1, 0 => []
  | fuel + 1, n + 1 => digitChar ((n + 1) % 10) :: natDigitsRevFuel fuel ((n + 1) / 10)

/-- Decimal digits of a natural number, least significant first (empty for
zero); the digit loop behind `fmt`'s `%d` and `big.Int.String`. -/
def natDigitsRev (n : Nat) : List Char := natDigitsRevFuel n n

theorem natDigitsRevFuel_congr :
    ∀ n fuel : Nat, n ≤ fuel → natDigitsRevFuel fuel n = natDigitsRev n := by
  intro n
  induction n using Nat.strong_induction_on with
  | _ n ih =>
    intro fuel hf
    match n, fuel with
    | 0, 0 => rfl
    | 0, f + 1 => rfl
    | m + 1, 0 => omega
    | m + 1, f + 1 =>
      show digitChar ((m + 1) % 10) :: natDigitsRevFuel f ((m + 1) / 10) = natDigitsRev (m + 1)
      rw [ih ((m + 1) / 10) (by omega) f (by omega)]
      show _ = natDigitsRevFuel (m + 1) (m + 1)
      show (_ : List Char) = digitChar ((m + 1) % 10) :: natDigitsRevFuel m ((m + 1) / 10)
      rw [ih ((m + 1) / 10) (by omega) m (by omega)]

theorem natDigitsRev_succ (m : Nat) :
    natDigitsRev (m + 1) = digitChar ((m + 1) % 10) :: natDigitsRev ((m + 1) / 10) := by
  show natDigitsRevFuel (m + 1) (m + 1) = _
  show digitChar ((m + 1) % 10) :: natDigitsRevFuel m ((m + 1) / 10) = _
  rw [natDigitsRevFuel_congr ((m + 1) / 10) m (by omega)]

theorem natDigitsRev_zero : natDigitsRev 0 = [] := rfl

/-- Decimal numeral of a natural number. -/
def natToDecimal (n : Nat) : Str := if n = 0 then ['0'] else (natDigitsRev n).reverse

/-- Model of `%d` formatting / `big.Int.String` on an integer. -/
def intToDecimal (i : Int) : Str :=
  if i < 0 then '-' :: natToDecimal i.natAbs else natToDecimal i.natAbs

theorem digitInBase_digitChar {d : Nat} (h : d < 10) :
    digitInBase 10 (digitChar d) = some d := by
  interval_cases d <;> decide

theorem parseDigitsAux_append (base acc : Nat) (l₁ l₂ : Str) :
    parseDigitsAux base acc (l₁ ++ l₂) =
      match parseDigitsAux base acc l₁ with
      | some a => parseDigitsAux base a l₂
      | none => none := by
  induction l₁ generalizing acc with
  | nil => simp [parseDigitsAux]
  | cons c cs ih =>
    simp only [List.cons_append, parseDigitsAux]
    cases digitInBase base c with
    | none => rfl
    | some d => exact ih _

theorem parseDigitsAux_natDigitsRev (n : Nat) : ∀ acc : Nat,
    parseDigitsAux 10 acc (natDigitsRev n).reverse =
      some (acc * 10 ^ (natDigitsRev n).length + n) := by
  induction n using Nat.strong_induction_on with
  | _ n ih =>
    intro acc
    match n with
    | 0 => simp [natDigitsRev_zero, parseDigitsAux]
    | m + 1 =>
      rw [natDigitsRev_succ, List.reverse_cons, parseDigitsAux_append,
        ih ((m + 1) / 10) (by omega) acc]
      have hd : digitInBase 10 (digitChar ((m + 1) % 10)) = some ((m + 1) % 10) :=
        digitInBase_digitChar (by omega)
      simp only [parseDigitsAux, hd, List.length_cons, List.length_reverse, Option.some.injEq]
      have hdm : 10 * ((m + 1) / 10) + (m + 1) % 10 = m + 1 := Nat.div_add_mod (m + 1) 10
      rw [pow_succ, ← mul_assoc]
      generalize acc * 10 ^ (natDigitsRev ((m + 1) / 10)).length = a at *
      omega

theorem natDigitsRev_ne_nil {n : Nat} (h : n ≠ 0) : natDigitsRev n ≠ [] := by
  match n with
  | 0 => exact absurd rfl h
  | m + 1 => rw [natDigitsRev_succ]; exact List.cons_ne_nil _ _

theorem parseDigits_natToDecimal (n : Nat) : parseDigits 10 (natToDecimal n) = some n := by
  by_cases h : n = 0
  · subst h; decide
  · have hne : (natDigitsRev n).reverse ≠ [] := by
      simpa using natDigitsRev_ne_nil h
    unfold natToDecimal
    rw [if_neg h]
    obtain ⟨c, cs, hcs⟩ := List.exists_cons_of_ne_nil hne
    rw [hcs]
    show parseDigitsAux 10 0 (c :: cs) = some n
    rw [← hcs, parseDigitsAux_natDigitsRev n 0]
    simp

theorem natDigitsRev_mem (n : Nat) : ∀ c ∈ natDigitsRev n, ∃ d, d < 10 ∧ c = digitChar d := by
  induction n using Nat.strong_induction_on with
  | _ n ih =>
    intro c hc
    match n with
    | 0 => simp [natDigitsRev_zero] at hc
    | m + 1 =>
      rw [natDigitsRev_succ] at hc
      rcases List.mem_cons.mp hc with h | h
      · exact ⟨(m + 1) % 10, by omega, h⟩
      · exact ih ((m + 1) / 10) (by omega) c h

theorem natToDecimal_chars (n : Nat) :
    ∀ c ∈ natToDecimal n, ∃ d, d < 10 ∧ c = digitChar d := by
  intro c hc
  unfold natToDecimal at hc
  by_cases h : n = 0
  · rw [if_pos h] at hc
    simp at hc
    exact ⟨0, by omega, by simp [hc, digitChar]⟩
  · rw [if_neg h, List.mem_reverse] at hc
    exact natDigitsRev_mem n c hc

theorem digitChar_ne_plus {d : Nat} (h : d < 10) : digitChar d ≠ '+' := by
  interval_cases d <;> decide

theorem digitChar_ne_minus {d : Nat} (h : d < 10) : digitChar d ≠ '-' := by
  interval_cases d <;> decide

theorem goBigIntSetString_natToDecimal (n : Nat) :
    goBigIntSetString 10 (natToDecimal n) = some (n : Int) := by
  have hne : natToDecimal n ≠ [] := by
    unfold natToDecimal
    by_cases h : n = 0
    · simp [h]
    · rw [if_neg h]
      simpa using natDigitsRev_ne_nil h
  obtain ⟨c, cs, hcs⟩ := List.exists_cons_of_ne_nil hne
  obtain ⟨d, hd, hcd⟩ := natToDecimal_chars n c (by rw [hcs]; exact List.mem_cons_self _ _)
  rw [hcs]
  show goBigIntSetString 10 (c :: cs) = some (n : Int)
  simp only [goBigIntSetString]
  rw [if_neg (hcd ▸ digitChar_ne_plus hd), if_neg (hcd ▸ digitChar_ne_minus hd), ← hcs,
    parseDigits_natToDecimal]
  rfl

theorem goBigIntSetString_intToDecimal (i : Int) :
    goBigIntSetString 10 (intToDecimal i) = some i := by
  unfold intToDecimal
  by_cases h : i < 0
  · rw [if_pos h]
    show goBigIntSetString 10 ('-' :: natToDecimal i.natAbs) = some i
    simp only [goBigIntSetString]
    rw [if_pos trivial, parseDigits_natToDecimal]
    show some (-(i.natAbs : Int)) = some i
    congr 1
    omega
  · rw [if_neg h, goBigIntSetString_natToDecimal]
    congr 1
    omega

theorem goParseInt64_intToDecimal (i : Int) (h : int64Min ≤ i ∧ i ≤ int64Max) :
    goParseInt64 (intToDecimal i) = some i := by
  unfold goParseInt64
  rw [goBigIntSetString_intToDecimal]
  show (if int64Min ≤ i ∧ i ≤ int64Max then some i else none) = some i
  rw [if_pos h]

/-! ### Models of the strings-package functions used by main.go -/

/-- Model of strings.HasPrefix. -/
def strHasPre (s pre : Str) : Bool := decide (s.take pre.length = pre)

/-- Model of strings.HasSuffix. -/
def strHasSuf (s suf : Str) : Bool := decide (s.drop (s.length - suf.length) = suf)

/-- Model of strings.TrimPrefix. -/
def strTrimPre (s pre : Str) : Str := if strHasPre s pre then s.drop pre.length else s

/-- Model of strings.TrimSuffix. -/
def strTrimSuf (s suf : Str) : Str :=
  if strHasSuf s suf then s.take (s.length - suf.length) else s

/-- Whitespace as recognized by unicode.IsSpace: the ASCII space
characters plus NEL and NBSP (further Unicode space-category runes do not
occur in this program's inputs). -/
def isGoSpace (c : Char) : Bool :=
  decide (c = ' ' ∨ c = '\t' ∨ c = '\n' ∨ c = Char.ofNat 11 ∨ c = Char.ofNat 12 ∨
    c = '\r' ∨ c = Char.ofNat 133 ∨ c = Char.ofNat 160)

/-- Model of strings.TrimSpace. -/
def goTrimSpace (s : Str) : Str :=
  ((s.dropWhile isGoSpace).reverse.dropWhile isGoSpace).reverse

/-- Model of strings.Split with a single-character separator: the slices
of `s` between occurrences of `sep`; never empty. -/
def goSplit (sep : Char) : Str → List Str
  | [] => [[]]
  | c :: cs =>
    if c = sep then [] :: goSplit sep cs
    else
      match goSplit sep cs with
      | r :: rs => (c :: r) :: rs
      | [] => [[c]]

/-- Byte length of a Go string (the sum of the UTF-8 sizes of its runes). -/
def goByteLen (s : Str) : Nat := (s.map Char.utf8Size).sum

theorem take_len_append {α : Type} (l₁ l₂ : List α) : (l₁ ++ l₂).take l₁.length = l₁ := by
  induction l₁ with
  | nil => rfl
  | cons c cs ih => simp [ih]

theorem drop_len_append {α : Type} (l₁ l₂ : List α) : (l₁ ++ l₂).drop l₁.length = l₂ := by
  induction l₁ with
  | nil => rfl
  | cons c cs ih => simp [ih]

theorem drop_len_add_append {α : Type} (l₁ l₂ : List α) (k : Nat) :
    (l₁ ++ l₂).drop (l₁.length + k) = l₂.drop k := by
  induction l₁ with
  | nil => simp
  | cons c cs ih => simp [Nat.succ_add, ih]

theorem strHasPre_append (p x : Str) : strHasPre (p ++ x) p = true := by
  simp [strHasPre, take_len_append]

theorem strTrimPre_append (p x : Str) : strTrimPre (p ++ x) p = x := by
  rw [strTrimPre, if_pos (strHasPre_append p x), drop_len_append]

theorem strHasSuf_append (x suf : Str) : strHasSuf (x ++ suf) suf = true := by
  have h : (x ++ suf).length - suf.length = x.length := by simp
  simp [strHasSuf, h, drop_len_append]

theorem strTrimSuf_append (x suf : Str) : strTrimSuf (x ++ suf) suf = x := by
  have h : (x ++ suf).length - suf.length = x.length := by simp
  rw [strTrimSuf, if_pos (strHasSuf_append x suf), h, take_len_append]

theorem dropWhile_eq_self_of_not {l : Str} {p : Char → Bool}
    (h : ∀ c ∈ l, p c = false) : l.dropWhile p = l := by
  cases l with
  | nil => rfl
  | cons c cs => simp [List.dropWhile_cons, h c (List.mem_cons_self _ _)]

theorem goTrimSpace_no_space {l : Str} (h : ∀ c ∈ l, isGoSpace c = false) :
    goTrimSpace l = l := by
  unfold goTrimSpace
  rw [dropWhile_eq_self_of_not h,
    dropWhile_eq_self_of_not (fun c hc => h c (List.mem_reverse.mp hc)),
    List.reverse_reverse]

theorem goTrimSpace_trailing_newline {l : Str} (h : ∀ c ∈ l, isGoSpace c = false) :
    goTrimSpace (l ++ ['\n']) = l := by
  cases l with
  | nil => decide
  | cons c cs =>
    have hfront : ((c :: cs) ++ ['\n']).dropWhile isGoSpace = (c :: cs) ++ ['\n'] := by
      rw [List.cons_append, List.dropWhile_cons,
        if_neg (by simp [h c (List.mem_cons_self c cs)])]
    have hrev : ((c :: cs) ++ ['\n']).reverse = '\n' :: (c :: cs).reverse := by
      rw [List.reverse_append]
      rfl
    have hback : ('\n' :: (c :: cs).reverse).dropWhile isGoSpace = (c :: cs).reverse := by
      rw [List.dropWhile_cons, if_pos (show isGoSpace '\n' = true by decide)]
      exact dropWhile_eq_self_of_not (fun d hd => h d (List.mem_reverse.mp hd))
    unfold goTrimSpace
    rw [hfront, hrev, hback, List.reverse_reverse]

theorem isGoSpace_digitChar {d : Nat} (h : d < 10) : isGoSpace (digitChar d) = false := by
  interval_cases d <;> decide

theorem intToDecimal_no_space (i : Int) : ∀ c ∈ intToDecimal i, isGoSpace c = false := by
  intro c hc
  unfold intToDecimal at hc
  by_cases h : i < 0
  · rw [if_pos h] at hc
    rcases List.mem_cons.mp hc with rfl | hmem
    · decide
    · obtain ⟨d, hd, rfl⟩ := natToDecimal_chars _ c hmem
      exact isGoSpace_digitChar hd
  · rw [if_neg h] at hc
    obtain ⟨d, hd, rfl⟩ := natToDecimal_chars _ c hc
    exact isGoSpace_digitChar hd

theorem goTrimSpace_meta (i : Int) :
    goTrimSpace (intToDecimal i ++ ['\n']) = intToDecimal i :=
  goTrimSpace_trailing_newline (intToDecimal_no_space i)

/-! ### Registry loader: loadRevokedCertificates (main.go lines 171-236) -/

/-- One revoked certificate (struct RevokedCert): arbitrary-precision
serial number, revocation time as Unix seconds (`time.Unix(epoch, 0)`),
and the integer reason code. -/
structure RevokedCert where
  serialNumber : Int
  revocationTime : Int
  reason : Int
deriving DecidableEq

/-- Outcome of one registry line inside the scan loop: silently skipped
(blank or comment), parsed into an entry, or skipped with a logged
warning. -/
inductive LineResult where
  | blank
  | entry (e : RevokedCert)
  | malformed
deriving DecidableEq

/-- Per-line logic of loadRevokedCertificates (main.go lines 186-229):
trim the line, skip empty lines and lines starting with '#', split on
':' expecting exactly three fields, parse the hexadecimal serial with
big.Int.SetString base 16, the epoch with strconv.ParseInt base 10 and
the reason with strconv.Atoi; any failure skips the line with a
warning. -/
def classifyLine (line : Str) : LineResult :=
  let t := goTrimSpace line
  if t = [] ∨ strHasPre t ['#'] = true then .blank
  else
    match goSplit ':' t with
    | [p0, p1, p2] =>
      match goBigIntSetString 16 p0 with
      | none => .malformed
      | some serial =>
        match goParseInt64 p1 with
        | none => .malformed
        | some epoch =>
          match goAtoi p2 with
          | none => .malformed
          | some reason => .entry ⟨serial, epoch, reason⟩
    | _ => .malformed

/-- The scan loop of loadRevokedCertificates: the entries in source line
order, together with the number of warning-logged (skipped malformed)
lines. -/
def processLines : List Str → List RevokedCert × Nat
  | [] => ([], 0)
  | l :: ls =>
    let r := processLines ls
    match classifyLine l with
    | .blank => r
    | .entry e => (e :: r.1, r.2)
    | .malformed => (r.1, r.2 + 1)

/-- bufio.MaxScanTokenSize = 64 * 1024: the default maximum size in bytes
of a bufio.Scanner token. -/
def maxScanTokenSize : Nat := 65536

/-- Model of line scanning with bufio.Scanner and bufio.ScanLines: lines
before the first oversized one are yielded; a line longer than
maxScanTokenSize stops the scan with bufio.ErrTooLong. -/
def scanLines : List Str → List Str × Option String
  | [] => ([], none)
  | l :: ls =>
    if maxScanTokenSize < goByteLen l then ([], some "bufio.Scanner: token too long")
    else
      let r := scanLines ls
      (l :: r.1, r.2)

/-- The registry source as observed through os.Open and the underlying
reader: a missing file, some other open error, or readable content — the
lines obtained before an optional underlying read error stops the
scanner. -/
inductive OpenResult where
  | notExist
  | openErr (e : String)
  | readable (lines : List Str) (readErr : Option String)

/-- Model of loadRevokedCertificates (main.go lines 171-236): a missing
registry is an empty list, an open error is a hard error, otherwise the
scanned lines are parsed one by one and a scanner error (oversized line
or reader failure) discards the parsed entries and returns a hard
error.  The second component counts warning-logged skipped lines. -/
def loadRevokedCertificates : OpenResult → Except String (List RevokedCert × Nat)
  | .notExist => .ok ([], 0)
  | .openErr e => .error ("opening file: " ++ e)
  | .readable lines readErr =>
    let s := scanLines lines
    let r := processLines s.1
    match s.2 with
    | some e => .error ("reading file: " ++ e)
    | none =>
      match readErr with
      | some e => .error ("reading file: " ++ e)
      | none => .ok r

/-- The entry produced by a line, if any. -/
def lineEntry (l : Str) : Option RevokedCert :=
  match classifyLine l with
  | .entry e => some e
  | _ => none

/-- Whether a line is skipped with a warning. -/
def lineMalformed (l : Str) : Bool :=
  match classifyLine l with
  | .malformed => true
  | _ => false

theorem processLines_eq (lines : List Str) :
    processLines lines = (lines.filterMap lineEntry, lines.countP lineMalformed) := by
  induction lines with
  | nil => rfl
  | cons l ls ih =>
    cases h : classifyLine l <;>
      simp [processLines, ih, h, List.filterMap_cons, List.countP_cons, lineEntry,
        lineMalformed]

instance {ε α : Type} [DecidableEq ε] [DecidableEq α] : DecidableEq (Except ε α) := fun a b =>
  match a, b with
  | .error e₁, .error e₂ =>
    if h : e₁ = e₂ then .isTrue (by rw [h]) else
      .isFalse (fun hh => h (Except.error.inj hh))
  | .ok a₁, .ok a₂ =>
    if h : a₁ = a₂ then .isTrue (by rw [h]) else
      .isFalse (fun hh => h (Except.ok.inj hh))
  | .error _, .ok _ => .isFalse (fun hh => Except.noConfusion hh)
  | .ok _, .error _ => .isFalse (fun hh => Except.noConfusion hh)

/-! ### Cache manager: the CRLServer cache fields and getCRL
(main.go lines 37-46 and 99-169) -/

/-- The cache fields of struct CRLServer guarded by `mu`: `cachedCRL`
(nil or the DER bytes), `cacheTime`, and `cacheNumber` (a possibly nil
big.Int pointer). -/
structure CRLState where
  cachedCRL : Option Str
  cacheTime : Int
  cacheNumber : Option Int
deriving DecidableEq

/-- cacheDuration = 1 * time.Hour, in seconds. -/
def cacheDurationSecs : Int := 3600

/-- The freshness test of getCRL:
`s.cachedCRL != nil && time.Since(s.cacheTime) < cacheDuration`. -/
def isCacheValid (s : CRLState) (now : Int) : Bool :=
  s.cachedCRL.isSome && decide (now - s.cacheTime < cacheDurationSecs)

/-- The cache directory: an association list from file name (relative to
the cache directory) to file content, plus injectable failures for the
two os.WriteFile calls of saveCachedCRL. -/
structure Disk where
  fs : List (Str × Str)
  derWriteErr : Option String
  metaWriteErr : Option String
deriving DecidableEq

/-- os.WriteFile onto the association list: create or overwrite. -/
def fsWrite : List (Str × Str) → Str → Str → List (Str × Str)
  | [], name, content => [(name, content)]
  | (n, c) :: rest, name, content =>
    if n = name then (n, content) :: rest else (n, c) :: fsWrite rest name content

/-- os.ReadFile: the content, or `none` for any read error (including
not-exist). -/
def fsRead : List (Str × Str) → Str → Option Str
  | [], _ => none
  | (n, c) :: rest, name => if n = name then some c else fsRead rest name

/-- The literal "crl-" file-name stem. -/
def crlPre : Str := ['c', 'r', 'l', '-']

/-- The literal ".der" payload extension. -/
def derSuf : Str := ['.', 'd', 'e', 'r']

/-- The literal ".meta" metadata extension. -/
def metaSuf : Str := ['.', 'm', 'e', 't', 'a']

/-- Payload file name `crl-<number>.der`. -/
def derFileName (numberStr : Str) : Str := crlPre ++ numberStr ++ derSuf

/-- Metadata file name `crl-<number>.meta`. -/
def metaFileName (numberStr : Str) : Str := crlPre ++ numberStr ++ metaSuf

/-- Model of saveCachedCRL (main.go lines 238-252): write the payload
under `crl-<number>.der`, then the generation timestamp (decimal Unix
seconds followed by a newline) under `crl-<number>.meta`; the first
write failure is returned.  A nil cacheNumber would make the Go code
dereference a nil pointer; it is modelled as an error and is unreachable
from the program's only call site, which runs after cacheNumber is
assigned. -/
def saveCachedCRL (s : CRLState) (d : Disk) : Disk × Option String :=
  match s.cacheNumber with
  | none => (d, some "nil cacheNumber")
  | some n =>
    let numStr := intToDecimal n
    match d.derWriteErr with
    | some e => (d, some e)
    | none =>
      let fs1 := fsWrite d.fs (derFileName numStr) (s.cachedCRL.getD [])
      match d.metaWriteErr with
      | some e => ({ d with fs := fs1 }, some e)
      | none =>
        ({ d with fs := fsWrite fs1 (metaFileName numStr) (intToDecimal s.cacheTime ++ ['\n']) },
          none)

/-- The environment one getCRL call runs in: the wall clock and the
results its external collaborators would produce — loadCertAndKey, the
registry source, x509.CreateRevocationList — plus the disk.  `C` is the
abstract type of a loaded CA credential (certificate and signer). -/
structure World (C : Type) where
  now : Int
  loadCertAndKeyRes : Except String C
  registry : OpenResult
  createRevocationList : List RevokedCert → Int → Int → C → Except String Str
  disk : Disk

/-- Observable outcome of one getCRL call: the cache state and disk it
leaves behind, the returned value, how often the credential loader and
the encoding primitive ran, and the logged-only persistence error, if
any. -/
structure GetCRLOut where
  state : CRLState
  disk : Disk
  out : Except String Str
  loaderCalls : Nat
  encodeCalls : Nat
  saveErr : Option String

/-- The regeneration block of getCRL (main.go lines 117-168), run by the
request that holds the write lock and still observes a stale cache:
reload credentials, reload the registry, build the template with
Number = now.Unix(), ThisUpdate = now, NextUpdate = now + cacheDuration,
encode, install the new artifact into the in-memory cache, then
best-effort persist (the save error is only logged). -/
def regenerate {C : Type} (w : World C) (s : CRLState) : GetCRLOut :=
  match w.loadCertAndKeyRes with
  | .error e => ⟨s, w.disk, .error ("loading certificate and key: " ++ e), 1, 0, none⟩
  | .ok creds =>
    match loadRevokedCertificates w.registry with
    | .error e => ⟨s, w.disk, .error ("loading revoked certificates: " ++ e), 1, 0, none⟩
    | .ok r =>
      match w.createRevocationList r.1 w.now (w.now + cacheDurationSecs) creds with
      | .error e => ⟨s, w.disk, .error ("creating CRL: " ++ e), 1, 1, none⟩
      | .ok crlBytes =>
        let s' : CRLState := ⟨some crlBytes, w.now, some w.now⟩
        let dres := saveCachedCRL s' w.disk
        ⟨s', dres.1, .ok crlBytes, 1, 1, dres.2⟩

/-- Model of getCRL (main.go lines 99-169).  The two identical freshness
tests mirror the read-locked fast path and the re-check after taking the
write lock; within one atomic lock-serialized execution the clock is
read once. -/
def getCRL {C : Type} (w : World C) (s : CRLState) : GetCRLOut :=
  if isCacheValid s w.now then ⟨s, w.disk, .ok (s.cachedCRL.getD []), 0, 0, none⟩
  else if isCacheValid s w.now then ⟨s, w.disk, .ok (s.cachedCRL.getD []), 0, 0, none⟩
  else regenerate w s

theorem getCRL_fresh {C : Type} (w : World C) (s : CRLState)
    (h : isCacheValid s w.now = true) :
    getCRL w s = ⟨s, w.disk, .ok (s.cachedCRL.getD []), 0, 0, none⟩ := by
  unfold getCRL
  rw [if_pos h]

theorem getCRL_stale {C : Type} (w : World C) (s : CRLState)
    (h : isCacheValid s w.now = false) :
    getCRL w s = regenerate w s := by
  unfold getCRL
  rw [if_neg (by simp [h]), if_neg (by simp [h])]

/-- Every run of the regeneration block either fails — leaving the cache
and disk untouched — or succeeds and installs exactly the new artifact
generated at `w.now`. -/
theorem regenerate_cases {C : Type} (w : World C) (s : CRLState) :
    (∃ e, (regenerate w s).out = .error e ∧ (regenerate w s).state = s ∧
      (regenerate w s).disk = w.disk) ∨
    (∃ b, regenerate w s = ⟨⟨some b, w.now, some w.now⟩,
      (saveCachedCRL ⟨some b, w.now, some w.now⟩ w.disk).1, .ok b, 1, 1,
      (saveCachedCRL ⟨some b, w.now, some w.now⟩ w.disk).2⟩) := by
  cases hc : w.loadCertAndKeyRes with
  | error e =>
    exact .inl ⟨"loading certificate and key: " ++ e, by simp [regenerate, hc],
      by simp [regenerate, hc], by simp [regenerate, hc]⟩
  | ok creds =>
    cases hr : loadRevokedCertificates w.registry with
    | error e =>
      exact .inl ⟨"loading revoked certificates: " ++ e, by simp [regenerate, hc, hr],
        by simp [regenerate, hc, hr], by simp [regenerate, hc, hr]⟩
    | ok r =>
      cases he : w.createRevocationList r.1 w.now (w.now + cacheDurationSecs) creds with
      | error e =>
        exact .inl ⟨"creating CRL: " ++ e, by simp [regenerate, hc, hr, he],
          by simp [regenerate, hc, hr, he], by simp [regenerate, hc, hr, he]⟩
      | ok b => exact .inr ⟨b, by simp [regenerate, hc, hr, he]⟩

/-- Successful regeneration, explicitly: with all three collaborator
results given, the regeneration block installs the artifact and reports
the save outcome. -/
theorem regenerate_of_ok {C : Type} (w : World C) (s : CRLState) (creds : C)
    (entries : List RevokedCert) (wn : Nat) (b : Str)
    (hc : w.loadCertAndKeyRes = .ok creds)
    (hr : loadRevokedCertificates w.registry = .ok (entries, wn))
    (he : w.createRevocationList entries w.now (w.now + cacheDurationSecs) creds = .ok b) :
    regenerate w s = ⟨⟨some b, w.now, some w.now⟩,
      (saveCachedCRL ⟨some b, w.now, some w.now⟩ w.disk).1, .ok b, 1, 1,
      (saveCachedCRL ⟨some b, w.now, some w.now⟩ w.disk).2⟩ := by
  simp [regenerate, hc, hr, he]

/-! ### Startup recovery: loadCachedCRL (main.go lines 254-319) -/

/-- A directory entry as returned by os.ReadDir. -/
structure Dirent where
  name : Str
  isDir : Bool
deriving DecidableEq

/-- The filesystem view one loadCachedCRL run observes: the result of
os.ReadDir over the cache directory (an error, or its entries in the
order the loop visits them), the file contents, and the current time. -/
structure LoadWorld where
  readDirErr : Option String
  entries : List Dirent
  fs : List (Str × Str)
  now : Int

/-- The name filter of the selection loop (main.go lines 266-277): skip
directories and names not of the form `crl-*.der`; otherwise yield the
number string cut out of the name by TrimPrefix/TrimSuffix. -/
def derCand (e : Dirent) : Option Str :=
  if e.isDir then none
  else if ¬(strHasPre e.name crlPre = true ∧ strHasSuf e.name derSuf = true) then
    none
  else some (strTrimSuf (strTrimPre e.name crlPre) derSuf)

/-- Name filter plus number parse (main.go lines 278-281): the number
string and its base-10 big.Int value. -/
def candNumber (e : Dirent) : Option (Str × Int) :=
  match derCand e with
  | none => none
  | some numberStr =>
    match goBigIntSetString 10 numberStr with
    | none => none
    | some number => some (numberStr, number)

/-- The metadata steps of the loop body (main.go lines 285-304): read
`crl-<number>.meta`, parse its trimmed content as a decimal timestamp,
and accept it only when it is within the freshness window. -/
def candTime (lw : LoadWorld) (numberStr : Str) : Option Int :=
  match fsRead lw.fs (metaFileName numberStr) with
  | none => none
  | some metaContent =>
    match goParseInt64 (goTrimSpace metaContent) with
    | none => none
    | some ts => if lw.now - ts < cacheDurationSecs then some ts else none

/-- One iteration of loadCachedCRL's selection loop (main.go lines
265-306) over the accumulator (latestNumber, latestTime, latestFile):
the metadata is consulted only when the parsed number beats the current
latest (`latestNumber == nil || number.Cmp(latestNumber) > 0`), and a
candidate that survives every test replaces the accumulator. -/
def scanEntry (lw : LoadWorld) (acc : Option Int × Int × Str) (e : Dirent) :
    Option Int × Int × Str :=
  match candNumber e with
  | none => acc
  | some nn =>
    if (match acc.1 with | none => true | some ln => decide (ln < nn.2)) then
      match candTime lw nn.1 with
      | none => acc
      | some ts => (some nn.2, ts, e.name)
    else acc

/-- Model of loadCachedCRL (main.go lines 254-319): scan the directory,
select among the `crl-*.der` files, then load the selected payload into
the cache.  A ReadDir error, no selected candidate (latestFile still
empty), or a failing payload read leaves the state untouched.  The
credential loader and the encoding primitive are not inputs of this
function: recovery cannot invoke them. -/
def loadCachedCRL (lw : LoadWorld) (s : CRLState) : CRLState :=
  match lw.readDirErr with
  | some _ => s
  | none =>
    let acc := lw.entries.foldl (scanEntry lw) (none, 0, [])
    if acc.2.2 ≠ [] then
      match fsRead lw.fs acc.2.2 with
      | some crlBytes => ⟨some crlBytes, acc.2.1, acc.1⟩
      | none => s
    else s

/-- A qualifying recovery candidate: a non-directory entry named
`crl-<number>.der` whose number parses in base 10 and whose metadata
file holds a parseable timestamp within the freshness window of
`lw.now`.  This is the entry-local part of the loop's selection test;
it does not depend on the accumulator. -/
def qualifies (lw : LoadWorld) (e : Dirent) : Option (Int × Int) :=
  match candNumber e with
  | none => none
  | some nn =>
    match candTime lw nn.1 with
    | none => none
    | some ts => some (nn.2, ts)

theorem qualifies_name_ne_nil {lw : LoadWorld} {e : Dirent} {nt : Int × Int}
    (h : qualifies lw e = some nt) : e.name ≠ [] := by
  intro hnil
  have hcn : candNumber e = none := by
    have hpre : strHasPre e.name crlPre = false := by
      rw [hnil]
      decide
    unfold candNumber derCand
    by_cases hdir : e.isDir = true
    · simp [hdir]
    · rw [if_neg hdir, if_pos]
      intro hps
      rw [hpre] at hps
      exact absurd hps.1 (by decide)
  rw [qualifies, hcn] at h
  exact Option.noConfusion h

theorem scanEntry_spec (lw : LoadWorld) (acc : Option Int × Int × Str) (e : Dirent) :
    (scanEntry lw acc e = acc ∧ qualifies lw e = none) ∨
    (∃ num ts, qualifies lw e = some (num, ts) ∧
      ((∃ ln, acc.1 = some ln ∧ num ≤ ln ∧ scanEntry lw acc e = acc) ∨
        ((∀ ln, acc.1 = some ln → ln < num) ∧
          scanEntry lw acc e = (some num, ts, e.name)))) := by
  cases hcn : candNumber e with
  | none => left; simp [scanEntry, qualifies, hcn]
  | some nn =>
    cases hct : candTime lw nn.1 with
    | none => left; simp [scanEntry, qualifies, hcn, hct]
    | some ts =>
      right
      refine ⟨nn.2, ts, by simp [qualifies, hcn, hct], ?_⟩
      cases hacc : acc.1 with
      | none =>
        right
        exact ⟨fun ln hln => Option.noConfusion hln, by simp [scanEntry, hcn, hacc, hct]⟩
      | some ln =>
        by_cases hlt : ln < nn.2
        · right
          exact ⟨fun ln' hln' => Option.some.inj hln' ▸ hlt,
            by simp [scanEntry, hcn, hacc, hlt, hct]⟩
        · left
          exact ⟨ln, rfl, by omega, by simp [scanEntry, hcn, hacc, hlt]⟩

/-- Invariant of the selection loop: either nothing qualifying has been
processed and the accumulator is still the initial one, or the
accumulator holds a qualifying processed entry whose number bounds the
number of every qualifying processed entry. -/
def SelInv (lw : LoadWorld) (processed : List Dirent) (acc : Option Int × Int × Str) : Prop :=
  (acc = (none, 0, []) ∧ ∀ e ∈ processed, qualifies lw e = none) ∨
  (∃ e ∈ processed, ∃ num ts, qualifies lw e = some (num, ts) ∧
    acc = (some num, ts, e.name) ∧
    ∀ e' ∈ processed, ∀ num' ts', qualifies lw e' = some (num', ts') → num' ≤ num)

theorem selInv_step (lw : LoadWorld) (processed : List Dirent)
    (acc : Option Int × Int × Str) (e : Dirent) (h : SelInv lw processed acc) :
    SelInv lw (processed ++ [e]) (scanEntry lw acc e) := by
  rcases scanEntry_spec lw acc e with ⟨hse, hq⟩ | ⟨num, ts, hq, hcase⟩
  · rw [hse]
    rcases h with ⟨hacc, hall⟩ | ⟨e₀, he₀, num₀, ts₀, hq₀, hacc, hmax⟩
    · left
      refine ⟨hacc, fun e' he' => ?_⟩
      rcases List.mem_append.mp he' with h1 | h1
      · exact hall e' h1
      · rw [List.mem_singleton.mp h1]
        exact hq
    · right
      refine ⟨e₀, List.mem_append_left _ he₀, num₀, ts₀, hq₀, hacc,
        fun e' he' num' ts' hq' => ?_⟩
      rcases List.mem_append.mp he' with h1 | h1
      · exact hmax e' h1 num' ts' hq'
      · rw [List.mem_singleton.mp h1, hq] at hq'
        exact Option.noConfusion hq'
  · rcases hcase with ⟨ln, hacc1, hle, hse⟩ | ⟨hgt, hse⟩
    · rw [hse]
      rcases h with ⟨hacc, hall⟩ | ⟨e₀, he₀, num₀, ts₀, hq₀, hacc, hmax⟩
      · rw [hacc] at hacc1
        exact absurd hacc1 (by simp)
      · right
        refine ⟨e₀, List.mem_append_left _ he₀, num₀, ts₀, hq₀, hacc,
          fun e' he' num' ts' hq' => ?_⟩
        rcases List.mem_append.mp he' with h1 | h1
        · exact hmax e' h1 num' ts' hq'
        · rw [List.mem_singleton.mp h1, hq] at hq'
          obtain ⟨h1', h2'⟩ := Prod.mk.injEq .. ▸ Option.some.inj hq'
          have hln : ln = num₀ := by
            rw [hacc] at hacc1
            exact Option.some.inj hacc1.symm
          omega
    · rw [hse]
      right
      refine ⟨e, List.mem_append_right _ (by simp), num, ts, hq, rfl,
        fun e' he' num' ts' hq' => ?_⟩
      rcases List.mem_append.mp he' with h1 | h1
      · rcases h with ⟨hacc, hall⟩ | ⟨e₀, he₀, num₀, ts₀, hq₀, hacc, hmax⟩
        · rw [hall e' h1] at hq'
          exact Option.noConfusion hq'
        · have h2 : num' ≤ num₀ := hmax e' h1 num' ts' hq'
          have h3 : num₀ < num := hgt num₀ (by rw [hacc])
          omega
      · rw [List.mem_singleton.mp h1, hq] at hq'
        obtain ⟨h1', h2'⟩ := Prod.mk.injEq .. ▸ Option.some.inj hq'
        omega

theorem selInv_foldl (lw : LoadWorld) (rest : List Dirent) :
    ∀ processed acc, SelInv lw processed acc →
      SelInv lw (processed ++ rest) (rest.foldl (scanEntry lw) acc) := by
  induction rest with
  | nil =>
    intro processed acc h
    simpa using h
  | cons e es ih =>
    intro processed acc h
    have h2 := ih (processed ++ [e]) _ (selInv_step lw processed acc e h)
    rw [List.append_assoc, List.singleton_append] at h2
    exact h2

/-- What one loadCachedCRL run can do: leave the state untouched, or
install the payload of a qualifying entry whose number bounds that of
every qualifying entry. -/
theorem loadCachedCRL_spec (lw : LoadWorld) (s : CRLState) :
    loadCachedCRL lw s = s ∨
    (∃ e ∈ lw.entries, ∃ num ts b, qualifies lw e = some (num, ts) ∧
      fsRead lw.fs e.name = some b ∧
      loadCachedCRL lw s = ⟨some b, ts, some num⟩ ∧
      ∀ e' ∈ lw.entries, ∀ num' ts', qualifies lw e' = some (num', ts') → num' ≤ num) := by
  unfold loadCachedCRL
  cases hrd : lw.readDirErr with
  | some e => exact .inl rfl
  | none =>
    have hinv := selInv_foldl lw lw.entries [] (none, 0, []) (.inl ⟨rfl, by simp⟩)
    rw [List.nil_append] at hinv
    rcases hinv with ⟨hacc, hall⟩ | ⟨e₀, he₀, num₀, ts₀, hq₀, hacc, hmax⟩
    · left
      simp [hacc]
    · simp only [hacc]
      rw [if_pos (show (((some num₀ : Option Int), ts₀, e₀.name)).2.2 ≠ [] from
        qualifies_name_ne_nil hq₀)]
      cases hread : fsRead lw.fs e₀.name with
      | none => exact .inl rfl
      | some b => exact .inr ⟨e₀, he₀, num₀, ts₀, b, hq₀, hread, rfl, hmax⟩

/-! ### Credential loader: loadCertAndKey (main.go lines 321-371) -/

/-- The collaborators loadCertAndKey calls: file reads, pem.Decode
(yielding the DER bytes of the first block, or none), and the x509
parsers.  `Cert` and `Key` are the abstract parsed types; `isSigner` is
the `crypto.Signer` type assertion. -/
structure CredWorld (Cert Key : Type) where
  readFile : Str → Except String Str
  pemDecode : Str → Option Str
  parseCertificate : Str → Except String Cert
  parsePKCS8 : Str → Except String Key
  parsePKCS1 : Str → Except String Key
  parseEC : Str → Except String Key
  isSigner : Key → Bool

/-- Model of loadCertAndKey (main.go lines 321-371): read and parse the
certificate, read and PEM-decode the key, then try PKCS#8, PKCS#1 and
EC decoding in order; the first successful parse is kept (the error
propagated when all fail is the EC one) and the crypto.Signer type
assertion is applied once, to the kept result. -/
def loadCertAndKey {Cert Key : Type} (w : CredWorld Cert Key) (crtFile keyFile : Str) :
    Except String (Cert × Key) :=
  match w.readFile crtFile with
  | .error e => .error ("reading cert file: " ++ e)
  | .ok certData =>
    match w.pemDecode certData with
    | none => .error "failed to parse certificate PEM"
    | some certDer =>
      match w.parseCertificate certDer with
      | .error e => .error ("parsing certificate: " ++ e)
      | .ok caCert =>
        match w.readFile keyFile with
        | .error e => .error ("reading key file: " ++ e)
        | .ok keyData =>
          match w.pemDecode keyData with
          | none => .error "failed to parse key PEM"
          | some keyDer =>
            match (match w.parsePKCS8 keyDer with
                    | .ok k => Except.ok k
                    | .error _ =>
                      match w.parsePKCS1 keyDer with
                      | .ok k => Except.ok k
                      | .error _ => w.parseEC keyDer) with
            | .error e => .error ("parsing key: " ++ e)
            | .ok caPrivKey =>
              if w.isSigner caPrivKey then .ok (caCert, caPrivKey)
              else .error "key does not implement crypto.Signer"

/-- A decoding attempt accepted only when it parses and the result is a
signer. -/
def acceptIfSigner {Key : Type} (isSigner : Key → Bool) : Except String Key → Option Key
  | .ok k => if isSigner k then some k else none
  | .error _ => none

/-- Written from the claim's words, for comparison with the code: the
first of the three decodings — PKCS#8, then PKCS#1, then EC — that
parses successfully AND exposes a signing capability. -/
def specFirstSigningKey {Cert Key : Type} (w : CredWorld Cert Key) (keyDer : Str) :
    Option Key :=
  match acceptIfSigner w.isSigner (w.parsePKCS8 keyDer) with
  | some k => some k
  | none =>
    match acceptIfSigner w.isSigner (w.parsePKCS1 keyDer) with
    | some k => some k
    | none => acceptIfSigner w.isSigner (w.parseEC keyDer)

/-! ### Concurrency: N requests through the RWMutex discipline of getCRL -/

/-- Where one request stands: it has not yet performed its read-locked
freshness check; it saw a stale cache and is waiting for the write lock;
or it finished with a result — the served bytes plus, as a ghost
observation, the artifact number served. -/
inductive Phase where
  | start
  | sawStale
  | done (res : Except String (Str × Int))
deriving DecidableEq

def Phase.isDone : Phase → Bool
  | .done _ => true
  | _ => false

/-- Shared state of the system: the cache and disk, each request's
phase, and ghost counters of credential-loader and encoder
invocations. -/
structure Sys (n : Nat) where
  cache : CRLState
  disk : Disk
  phases : Fin n → Phase
  loaderCalls : Nat
  encodeCalls : Nat

/-- The atomic events getCRL performs under the RWMutex: `readCheck i`
is request i's read-locked freshness check (main.go lines 100-106);
`critEnter i` is its write-locked critical section — the double-check
followed, if still stale, by the whole regeneration (lines 109-168).
The lock makes each event atomic, so every concurrent execution is some
sequence of these events. -/
inductive Event (n : Nat) where
  | readCheck (i : Fin n)
  | critEnter (i : Fin n)

/-- What a request returns when it serves the cached artifact. -/
def serveResult (s : CRLState) : Except String (Str × Int) :=
  .ok (s.cachedCRL.getD [], s.cacheNumber.getD 0)

/-- One atomic event.  An event for a request not in the right phase
(a schedule that replays a finished request) is a no-op. -/
def step {C : Type} {n : Nat} (w : World C) (σ : Sys n) : Event n → Sys n
  | .readCheck i =>
    match σ.phases i with
    | .start =>
      if isCacheValid σ.cache w.now then
        { σ with phases := Function.update σ.phases i (.done (serveResult σ.cache)) }
      else { σ with phases := Function.update σ.phases i .sawStale }
    | _ => σ
  | .critEnter i =>
    match σ.phases i with
    | .sawStale =>
      if isCacheValid σ.cache w.now then
        { σ with phases := Function.update σ.phases i (.done (serveResult σ.cache)) }
      else
        let r := regenerate { w with disk := σ.disk } σ.cache
        { cache := r.state, disk := r.disk,
          phases := Function.update σ.phases i (.done (r.out.map (fun b => (b, w.now)))),
          loaderCalls := σ.loaderCalls + r.loaderCalls,
          encodeCalls := σ.encodeCalls + r.encodeCalls }
    | _ => σ

/-- A whole execution: the events in interleaving order. -/
def run {C : Type} {n : Nat} (w : World C) (σ : Sys n) (evs : List (Event n)) : Sys n :=
  evs.foldl (step w) σ

/-- Single-flight invariant: either no regeneration has happened — the
cache and disk are untouched, the counters are zero and no request is
done — or exactly one has, the fresh artifact is installed, and every
finished request got it. -/
def SFInv {C : Type} {n : Nat} (w : World C) (σ₀ : Sys n) (B : Str) (σ : Sys n) : Prop :=
  (σ.cache = σ₀.cache ∧ σ.disk = σ₀.disk ∧ σ.loaderCalls = 0 ∧ σ.encodeCalls = 0 ∧
    ∀ i, σ.phases i = .start ∨ σ.phases i = .sawStale) ∨
  (σ.cache = ⟨some B, w.now, some w.now⟩ ∧ σ.loaderCalls = 1 ∧ σ.encodeCalls = 1 ∧
    ∀ i, σ.phases i = .start ∨ σ.phases i = .sawStale ∨
      σ.phases i = .done (.ok (B, w.now)))

theorem isCacheValid_fresh (B : Str) (now : Int) :
    isCacheValid ⟨some B, now, some now⟩ now = true := by
  simp [isCacheValid, cacheDurationSecs]

theorem serveResult_fresh (B : Str) (now : Int) :
    serveResult ⟨some B, now, some now⟩ = .ok (B, now) := rfl

theorem update_phase_or {n : Nat} (ph : Fin n → Phase) (i : Fin n) (p : Phase)
    (P : Phase → Prop) (hall : ∀ j, P (ph j)) (hp : P p) :
    ∀ j, P (Function.update ph i p j) := by
  intro j
  by_cases hji : j = i
  · subst hji
    rw [Function.update_same]
    exact hp
  · rw [Function.update_noteq hji]
    exact hall j

theorem sfInv_step {C : Type} {n : Nat} (w : World C) (σ₀ : Sys n) (B : Str)
    (creds : C) (entries : List RevokedCert) (wn : Nat)
    (hstale : isCacheValid σ₀.cache w.now = false)
    (hc : w.loadCertAndKeyRes = .ok creds)
    (hr : loadRevokedCertificates w.registry = .ok (entries, wn))
    (he : w.createRevocationList entries w.now (w.now + cacheDurationSecs) creds = .ok B)
    (σ : Sys n) (hinv : SFInv w σ₀ B σ) (ev : Event n) :
    SFInv w σ₀ B (step w σ ev) := by
  have hfresh := isCacheValid_fresh B w.now
  cases ev with
  | readCheck i =>
    rcases hinv with ⟨hcache, hdisk, hl, hen, hph⟩ | ⟨hcache, hl, hen, hph⟩
    · rcases hph i with hpi | hpi
      · have hstale' : isCacheValid σ.cache w.now = false := by rw [hcache]; exact hstale
        have hstep : step w σ (.readCheck i) =
            { σ with phases := Function.update σ.phases i .sawStale } := by
          simp [step, hpi, hstale']
        rw [hstep]
        exact .inl ⟨hcache, hdisk, hl, hen,
          update_phase_or _ _ _ (fun p => p = .start ∨ p = .sawStale) hph (Or.inr rfl)⟩
      · have hstep : step w σ (.readCheck i) = σ := by simp [step, hpi]
        rw [hstep]
        exact .inl ⟨hcache, hdisk, hl, hen, hph⟩
    · rcases hph i with hpi | hpi | hpi
      · have hfresh' : isCacheValid σ.cache w.now = true := by rw [hcache]; exact hfresh
        have hstep : step w σ (.readCheck i) =
            { σ with phases := Function.update σ.phases i (.done (.ok (B, w.now))) } := by
          simp [step, hpi, hfresh', hcache, serveResult, hfresh]
        rw [hstep]
        exact .inr ⟨hcache, hl, hen,
          update_phase_or _ _ _
            (fun p => p = .start ∨ p = .sawStale ∨ p = .done (.ok (B, w.now))) hph
            (Or.inr (Or.inr rfl))⟩
      · have hstep : step w σ (.readCheck i) = σ := by simp [step, hpi]
        rw [hstep]
        exact .inr ⟨hcache, hl, hen, hph⟩
      · have hstep : step w σ (.readCheck i) = σ := by simp [step, hpi]
        rw [hstep]
        exact .inr ⟨hcache, hl, hen, hph⟩
  | critEnter i =>
    rcases hinv with ⟨hcache, hdisk, hl, hen, hph⟩ | ⟨hcache, hl, hen, hph⟩
    · rcases hph i with hpi | hpi
      · have hstep : step w σ (.critEnter i) = σ := by simp [step, hpi]
        rw [hstep]
        exact .inl ⟨hcache, hdisk, hl, hen, hph⟩
      · have hstale' : isCacheValid σ.cache w.now = false := by rw [hcache]; exact hstale
        have hregen := regenerate_of_ok { w with disk := σ.disk } σ.cache creds entries wn B
          hc hr he
        have hstep : step w σ (.critEnter i) =
            { cache := ⟨some B, w.now, some w.now⟩,
              disk := (saveCachedCRL ⟨some B, w.now, some w.now⟩ σ.disk).1,
              phases := Function.update σ.phases i (.done (.ok (B, w.now))),
              loaderCalls := σ.loaderCalls + 1,
              encodeCalls := σ.encodeCalls + 1 } := by
          simp [step, hpi, hstale', hregen, Except.map]
        rw [hstep]
        refine .inr ⟨rfl, by rw [hl], by rw [hen], ?_⟩
        exact update_phase_or _ _ _
          (fun p => p = .start ∨ p = .sawStale ∨ p = .done (.ok (B, w.now)))
          (fun j => (hph j).elim Or.inl (fun h => Or.inr (Or.inl h)))
          (Or.inr (Or.inr rfl))
    · rcases hph i with hpi | hpi | hpi
      · have hstep : step w σ (.critEnter i) = σ := by simp [step, hpi]
        rw [hstep]
        exact .inr ⟨hcache, hl, hen, hph⟩
      · have hfresh' : isCacheValid σ.cache w.now = true := by rw [hcache]; exact hfresh
        have hstep : step w σ (.critEnter i) =
            { σ with phases := Function.update σ.phases i (.done (.ok (B, w.now))) } := by
          simp [step, hpi, hfresh', hcache, serveResult, hfresh]
        rw [hstep]
        exact .inr ⟨hcache, hl, hen,
          update_phase_or _ _ _
            (fun p => p = .start ∨ p = .sawStale ∨ p = .done (.ok (B, w.now))) hph
            (Or.inr (Or.inr rfl))⟩
      · have hstep : step w σ (.critEnter i) = σ := by simp [step, hpi]
        rw [hstep]
        exact .inr ⟨hcache, hl, hen, hph⟩

theorem sfInv_run {C : Type} {n : Nat} (w : World C) (σ₀ : Sys n) (B : Str)
    (creds : C) (entries : List RevokedCert) (wn : Nat)
    (hstale : isCacheValid σ₀.cache w.now = false)
    (hc : w.loadCertAndKeyRes = .ok creds)
    (hr : loadRevokedCertificates w.registry = .ok (entries, wn))
    (he : w.createRevocationList entries w.now (w.now + cacheDurationSecs) creds = .ok B)
    (evs : List (Event n)) :
    ∀ σ, SFInv w σ₀ B σ → SFInv w σ₀ B (run w σ evs) := by
  induction evs with
  | nil => intro σ h; exact h
  | cons ev evs ih =>
    intro σ h
    exact ih (step w σ ev) (sfInv_step w σ₀ B creds entries wn hstale hc hr he σ h ev)

/-! ### File-name lemmas for the persistence round trip -/

theorem strHasPre_der (ds : Str) : strHasPre (derFileName ds) crlPre = true := by
  unfold derFileName
  rw [List.append_assoc]
  exact strHasPre_append _ _

theorem strHasSuf_der (ds : Str) : strHasSuf (derFileName ds) derSuf = true := by
  unfold derFileName
  exact strHasSuf_append _ _

theorem trims_der (ds : Str) :
    strTrimSuf (strTrimPre (derFileName ds) crlPre) derSuf = ds := by
  unfold derFileName
  rw [List.append_assoc, strTrimPre_append, strTrimSuf_append]

theorem derCand_derFileName (ds : Str) : derCand ⟨derFileName ds, false⟩ = some ds := by
  unfold derCand
  rw [if_neg (by decide : ¬((false : Bool) = true)), if_neg]
  · show some (strTrimSuf (strTrimPre (derFileName ds) crlPre) derSuf) = some ds
    rw [trims_der]
  · intro hcon
    exact hcon ⟨strHasPre_der ds, strHasSuf_der ds⟩

theorem meta_drop (ds : Str) :
    (metaFileName ds).drop ((metaFileName ds).length - derSuf.length) =
      ['m', 'e', 't', 'a'] := by
  have h2 : (((crlPre ++ ds) ++ metaSuf).length - derSuf.length)
      = (crlPre ++ ds).length + 1 := by
    simp only [List.length_append]
    have h5 : metaSuf.length = 5 := rfl
    have h4 : derSuf.length = 4 := rfl
    have h3 : crlPre.length = 4 := rfl
    omega
  show ((crlPre ++ ds) ++ metaSuf).drop (((crlPre ++ ds) ++ metaSuf).length - derSuf.length)
      = ['m', 'e', 't', 'a']
  rw [h2, drop_len_add_append]
  rfl

theorem metaFileName_not_der (ds : Str) :
    strHasSuf (metaFileName ds) derSuf = false := by
  unfold strHasSuf
  rw [meta_drop]
  decide

theorem derCand_metaFileName (ds : Str) : derCand ⟨metaFileName ds, false⟩ = none := by
  unfold derCand
  rw [if_neg (by decide : ¬((false : Bool) = true)), if_pos]
  intro hps
  have h := hps.2
  rw [metaFileName_not_der] at h
  exact absurd h (by decide)

theorem derFileName_ne_metaFileName (ds : Str) : derFileName ds ≠ metaFileName ds := by
  intro h
  have hl := congrArg List.length h
  unfold derFileName metaFileName at hl
  simp only [List.length_append] at hl
  have h4 : derSuf.length = 4 := rfl
  have h5 : metaSuf.length = 5 := rfl
  omega

theorem derFileName_ne_nil (ds : Str) : derFileName ds ≠ [] := by
  intro h
  have hl := congrArg List.length h
  unfold derFileName at hl
  simp only [List.length_append, List.length_nil] at hl
  have h3 : crlPre.length = 4 := rfl
  omega

theorem candNumber_der (n : Int) :
    candNumber ⟨derFileName (intToDecimal n), false⟩ = some (intToDecimal n, n) := by
  simp [candNumber, derCand_derFileName, goBigIntSetString_intToDecimal]

theorem candNumber_meta (ds : Str) : candNumber ⟨metaFileName ds, false⟩ = none := by
  simp [candNumber, derCand_metaFileName]

theorem fsRead_cons_ne {a b : Str} (h : a ≠ b) (c : Str) (fs : List (Str × Str)) :
    fsRead ((a, c) :: fs) b = fsRead fs b := by
  simp only [fsRead]
  rw [if_neg h]

theorem fsRead_cons_eq (a c : Str) (fs : List (Str × Str)) :
    fsRead ((a, c) :: fs) a = some c := by
  simp [fsRead]

/-! ### Inversion helpers for getCRL -/

theorem getCRL_loader_one_stale {C : Type} {w : World C} {s : CRLState}
    (h : (getCRL w s).loaderCalls = 1) : isCacheValid s w.now = false := by
  cases hb : isCacheValid s w.now with
  | true =>
    rw [getCRL_fresh w s hb] at h
    simp at h
  | false => rfl

theorem regenerate_ok_state {C : Type} {w : World C} {s : CRLState} {b : Str}
    (h : (regenerate w s).out = .ok b) :
    (regenerate w s).state = ⟨some b, w.now, some w.now⟩ := by
  rcases regenerate_cases w s with ⟨e, hout, _, _⟩ | ⟨b', hshape⟩
  · rw [hout] at h
    exact Except.noConfusion h
  · have hb : b' = b := by
      rw [hshape] at h
      simpa using h
    subst hb
    rw [hshape]

/-! ### Claim theorems -/

/-- C6: loading a registry whose lines are "BADHEX:100:1", "", "# comment",
"1A2B:1700000000:1" yields exactly one RevokedCert — serial 0x1A2B, time
1700000000, reason 1 — and exactly one skipped-line warning; and in
general the scan loop returns in source line order exactly the entries of
the well-formed lines and counts one warning per malformed line, never
aborting on a malformed line. -/
theorem registry_tolerance :
    processLines
        ["BADHEX:100:1".data, "".data, "# comment".data, "1A2B:1700000000:1".data] =
      ([⟨0x1A2B, 1700000000, 1⟩], 1) ∧
    ∀ lines : List Str,
      processLines lines = (lines.filterMap lineEntry, lines.countP lineMalformed) :=
  ⟨by decide, processLines_eq⟩

/-- C7: a missing registry file yields an empty entry list and no error;
any other open failure, and any reader failure during scanning, is a hard
error — and a regeneration that hits such a registry error returns an
error and leaves the cache untouched. -/
theorem registry_missing_and_io_errors :
    (loadRevokedCertificates .notExist = .ok ([], 0)) ∧
    (∀ e, loadRevokedCertificates (.openErr e) = .error ("opening file: " ++ e)) ∧
    (∀ (lines : List Str) e, ∃ m,
      loadRevokedCertificates (.readable lines (some e)) = .error m) ∧
    (∀ {C : Type} (w : World C) (s : CRLState) (e : String),
      isCacheValid s w.now = false → w.registry = .openErr e →
      ∃ m, (getCRL w s).out = .error m ∧ (getCRL w s).state = s) := by
  refine ⟨rfl, fun e => rfl, fun lines e => ?_, ?_⟩
  · cases hs : (scanLines lines).2 with
    | some m => exact ⟨"reading file: " ++ m, by simp [loadRevokedCertificates, hs]⟩
    | none => exact ⟨"reading file: " ++ e, by simp [loadRevokedCertificates, hs]⟩
  · intro C w s e hstale hreg
    rw [getCRL_stale w s hstale]
    rcases regenerate_cases w s with ⟨m, hout, hst, _⟩ | ⟨b, hshape⟩
    · exact ⟨m, hout, hst⟩
    · exfalso
      cases hcred : w.loadCertAndKeyRes with
      | error e' =>
        have hout : (regenerate w s).out = .error ("loading certificate and key: " ++ e') := by
          simp [regenerate, hcred]
        rw [hshape] at hout
        simp at hout
      | ok creds =>
        have hldr : loadRevokedCertificates w.registry = .error ("opening file: " ++ e) := by
          rw [hreg]
          rfl
        have hout : (regenerate w s).out =
            .error ("loading revoked certificates: " ++ ("opening file: " ++ e)) := by
          simp [regenerate, hcred, hldr]
        rw [hshape] at hout
        simp at hout

/-- Concrete world for the C7 witness: the registry open fails with a
non-not-exist error while everything else would succeed. -/
def ioErrWorld : World Unit :=
  ⟨5000, .ok (), .openErr "permission denied", fun _ _ _ _ => .ok ['X'], ⟨[], none, none⟩⟩

theorem registry_missing_and_io_errors_witness :
    ∃ m, (getCRL ioErrWorld ⟨none, 0, none⟩).out = .error m ∧
      (getCRL ioErrWorld ⟨none, 0, none⟩).state = ⟨none, 0, none⟩ :=
  registry_missing_and_io_errors.2.2.2 ioErrWorld ⟨none, 0, none⟩ "permission denied"
    (by decide) rfl

/-- The oversized registry line: 65537 ASCII bytes, one byte over
bufio.MaxScanTokenSize. -/
def longLine : Str := List.replicate 65537 'a'

theorem goByteLen_longLine : goByteLen longLine = 65537 := by
  unfold goByteLen longLine
  rw [List.map_replicate, List.sum_replicate]
  rw [show ('a').utf8Size = 1 from rfl, smul_eq_mul, mul_one]

theorem scanLines_long (good : Str) (hgood : ¬ maxScanTokenSize < goByteLen good)
    (l : Str) (hl : maxScanTokenSize < goByteLen l) (ls : List Str) :
    scanLines (good :: l :: ls) = ([good], some "bufio.Scanner: token too long") := by
  show (if maxScanTokenSize < goByteLen good
        then (([], some "bufio.Scanner: token too long") : List Str × Option String)
        else (good :: (scanLines (l :: ls)).1, (scanLines (l :: ls)).2)) = _
  rw [if_neg hgood]
  have h : scanLines (l :: ls) = ([], some "bufio.Scanner: token too long") := by
    show (if maxScanTokenSize < goByteLen l
          then (([], some "bufio.Scanner: token too long") : List Str × Option String)
          else (l :: (scanLines ls).1, (scanLines ls).2)) = _
    rw [if_pos hl]
  rw [h]

theorem loadRevoked_scanErr (lines : List Str) (e : String)
    (h : (scanLines lines).2 = some e) :
    loadRevokedCertificates (.readable lines none) =
      .error ("reading file: " ++ e) := by
  show (match (scanLines lines).2 with
        | some e => Except.error ("reading file: " ++ e)
        | none =>
          match (none : Option String) with
          | some e => Except.error ("reading file: " ++ e)
          | none => Except.ok (processLines (scanLines lines).1)) =
      Except.error ("reading file: " ++ e)
  rw [h]

/-- C10: per-line tolerance has a limit inherited from bufio.Scanner: a
single registry line longer than the default 64 KiB token size stops the
scan with ErrTooLong, so loadRevokedCertificates fails the whole load
(aborting the regeneration) instead of skipping that one line — even
though the preceding line is perfectly well-formed. -/
theorem oversized_line_aborts_load :
    goByteLen longLine = 65537 ∧ maxScanTokenSize < goByteLen longLine ∧
    ∃ m, loadRevokedCertificates (.readable ["1A2B:100:1".data, longLine] none) =
      .error m := by
  have h2 : maxScanTokenSize < goByteLen longLine := by
    rw [goByteLen_longLine]
    decide
  have h1 : ¬ maxScanTokenSize < goByteLen ("1A2B:100:1".data) := by decide
  refine ⟨goByteLen_longLine, h2,
    "reading file: " ++ "bufio.Scanner: token too long", ?_⟩
  exact loadRevoked_scanErr _ _ (by rw [scanLines_long _ h1 _ h2 []])

/-- C3: if any step of a triggered regeneration fails — credential
loading, registry loading, or the encoding primitive — then getCRL
returns an error and the cached state and disk are exactly what they
were before the attempt. -/
theorem regeneration_failure_preserves_cache {C : Type} (w : World C) (s : CRLState)
    (hstale : isCacheValid s w.now = false)
    (hfail : (∃ e, w.loadCertAndKeyRes = .error e) ∨
      (∃ e, loadRevokedCertificates w.registry = .error e) ∨
      (∃ creds entries wn e, w.loadCertAndKeyRes = .ok creds ∧
        loadRevokedCertificates w.registry = .ok (entries, wn) ∧
        w.createRevocationList entries w.now (w.now + cacheDurationSecs) creds =
          .error e)) :
    (∃ m, (getCRL w s).out = .error m) ∧ (getCRL w s).state = s ∧
      (getCRL w s).disk = w.disk := by
  rw [getCRL_stale w s hstale]
  rcases regenerate_cases w s with ⟨m, hout, hst, hdk⟩ | ⟨b, hshape⟩
  · exact ⟨⟨m, hout⟩, hst, hdk⟩
  · exfalso
    rcases hfail with ⟨e, he⟩ | ⟨e, he⟩ | ⟨creds, entries, wn, e, hcred, hreg, henc⟩
    · have hout : (regenerate w s).out = .error ("loading certificate and key: " ++ e) := by
        simp [regenerate, he]
      rw [hshape] at hout
      simp at hout
    · cases hcred : w.loadCertAndKeyRes with
      | error e' =>
        have hout : (regenerate w s).out =
            .error ("loading certificate and key: " ++ e') := by
          simp [regenerate, hcred]
        rw [hshape] at hout
        simp at hout
      | ok creds =>
        have hout : (regenerate w s).out =
            .error ("loading revoked certificates: " ++ e) := by
          simp [regenerate, hcred, he]
        rw [hshape] at hout
        simp at hout
    · have hout : (regenerate w s).out = .error ("creating CRL: " ++ e) := by
        simp [regenerate, hcred, hreg, henc]
      rw [hshape] at hout
      simp at hout

/-- Concrete world for the C3 witness: credential loading fails while a
one-hour-old artifact sits in the cache. -/
def credFailWorld : World Unit :=
  ⟨5000, .error "bad key", .notExist, fun _ _ _ _ => .ok ['X'], ⟨[], none, none⟩⟩

theorem regeneration_failure_preserves_cache_witness :
    (∃ m, (getCRL credFailWorld ⟨some ['O'], 0, some 0⟩).out = .error m) ∧
      (getCRL credFailWorld ⟨some ['O'], 0, some 0⟩).state = ⟨some ['O'], 0, some 0⟩ ∧
      (getCRL credFailWorld ⟨some ['O'], 0, some 0⟩).disk = credFailWorld.disk :=
  regeneration_failure_preserves_cache credFailWorld ⟨some ['O'], 0, some 0⟩ (by decide)
    (.inl ⟨"bad key", rfl⟩)

/-- C9: when regeneration succeeds, a failure of the best-effort disk
persistence never surfaces: the in-memory cache is updated with the new
artifact, the save outcome is only recorded (logged), the request
receives the freshly generated bytes with no error — and the returned
value and installed state are the same whatever disk the world carries,
failing or not. -/
theorem save_failure_never_fails_request {C : Type} (w : World C) (s : CRLState)
    (creds : C) (entries : List RevokedCert) (wn : Nat) (B : Str)
    (hstale : isCacheValid s w.now = false)
    (hc : w.loadCertAndKeyRes = .ok creds)
    (hr : loadRevokedCertificates w.registry = .ok (entries, wn))
    (he : w.createRevocationList entries w.now (w.now + cacheDurationSecs) creds = .ok B) :
    (getCRL w s).out = .ok B ∧
    (getCRL w s).state = ⟨some B, w.now, some w.now⟩ ∧
    (getCRL w s).saveErr = (saveCachedCRL ⟨some B, w.now, some w.now⟩ w.disk).2 ∧
    ∀ d' : Disk, (getCRL { w with disk := d' } s).out = .ok B ∧
      (getCRL { w with disk := d' } s).state = ⟨some B, w.now, some w.now⟩ := by
  have h1 := regenerate_of_ok w s creds entries wn B hc hr he
  rw [getCRL_stale w s hstale, h1]
  refine ⟨rfl, rfl, rfl, fun d' => ?_⟩
  have h2 := regenerate_of_ok { w with disk := d' } s creds entries wn B hc hr he
  rw [getCRL_stale { w with disk := d' } s hstale, h2]
  exact ⟨rfl, rfl⟩

/-- Concrete world for the C9 witness: both persistence writes fail. -/
def diskFailWorld : World Unit :=
  ⟨1000, .ok (), .notExist, fun _ _ _ _ => .ok ['X'],
    ⟨[], some "disk full", some "disk full"⟩⟩

theorem save_failure_never_fails_request_witness :
    (getCRL diskFailWorld ⟨none, 0, none⟩).out = .ok ['X'] ∧
    (getCRL diskFailWorld ⟨none, 0, none⟩).state = ⟨some ['X'], 1000, some 1000⟩ ∧
    (getCRL diskFailWorld ⟨none, 0, none⟩).saveErr =
      (saveCachedCRL ⟨some ['X'], 1000, some 1000⟩ diskFailWorld.disk).2 ∧
    ∀ d' : Disk, (getCRL { diskFailWorld with disk := d' } ⟨none, 0, none⟩).out = .ok ['X'] ∧
      (getCRL { diskFailWorld with disk := d' } ⟨none, 0, none⟩).state =
        ⟨some ['X'], 1000, some 1000⟩ :=
  save_failure_never_fails_request diskFailWorld ⟨none, 0, none⟩ () [] 0 ['X']
    (by decide) rfl rfl rfl

/-- C2: for successive successful regenerations within one process
lifetime, the artifact numbers strictly increase.  The second
regeneration can only run once the first artifact is stale, so its
`now` is at least one hour past the first artifact's generation second,
which is the first artifact's number — no extra clock assumption is
needed for this direction. -/
theorem crl_number_strictly_increases {C : Type} (w₁ w₂ : World C) (s₀ : CRLState)
    (b₁ b₂ : Str)
    (h₁l : (getCRL w₁ s₀).loaderCalls = 1)
    (h₁o : (getCRL w₁ s₀).out = .ok b₁)
    (h₂l : (getCRL w₂ ((getCRL w₁ s₀).state)).loaderCalls = 1)
    (h₂o : (getCRL w₂ ((getCRL w₁ s₀).state)).out = .ok b₂) :
    ∃ n₁ n₂ : Int, (getCRL w₁ s₀).state.cacheNumber = some n₁ ∧
      (getCRL w₂ ((getCRL w₁ s₀).state)).state.cacheNumber = some n₂ ∧ n₁ < n₂ := by
  have hst₁ : isCacheValid s₀ w₁.now = false := getCRL_loader_one_stale h₁l
  rw [getCRL_stale w₁ s₀ hst₁] at h₁o h₂l h₂o ⊢
  have hs₁ : (regenerate w₁ s₀).state = ⟨some b₁, w₁.now, some w₁.now⟩ :=
    regenerate_ok_state h₁o
  rw [hs₁] at h₂l h₂o ⊢
  have hst₂ : isCacheValid (⟨some b₁, w₁.now, some w₁.now⟩ : CRLState) w₂.now = false :=
    getCRL_loader_one_stale h₂l
  rw [getCRL_stale w₂ _ hst₂] at h₂o ⊢
  have hs₂ : (regenerate w₂ ⟨some b₁, w₁.now, some w₁.now⟩).state =
      ⟨some b₂, w₂.now, some w₂.now⟩ := regenerate_ok_state h₂o
  rw [hs₂]
  refine ⟨w₁.now, w₂.now, rfl, rfl, ?_⟩
  have hgap : ¬ (w₂.now - w₁.now < cacheDurationSecs) := by
    intro hlt
    have : isCacheValid (⟨some b₁, w₁.now, some w₁.now⟩ : CRLState) w₂.now = true := by
      simp [isCacheValid]
      omega
    rw [this] at hst₂
    exact Bool.noConfusion hst₂
  unfold cacheDurationSecs at hgap
  omega

/-- Concrete worlds for the C2 witness: the second request arrives
exactly one hour after the first regeneration. -/
def regenWorld1 : World Unit :=
  ⟨1000, .ok (), .notExist, fun _ _ _ _ => .ok ['X'], ⟨[], none, none⟩⟩

def regenWorld2 : World Unit :=
  ⟨4600, .ok (), .notExist, fun _ _ _ _ => .ok ['Y'], ⟨[], none, none⟩⟩

theorem crl_number_strictly_increases_witness :
    ∃ n₁ n₂ : Int,
      (getCRL regenWorld1 ⟨none, 0, none⟩).state.cacheNumber = some n₁ ∧
      (getCRL regenWorld2 ((getCRL regenWorld1 ⟨none, 0, none⟩).state)).state.cacheNumber =
        some n₂ ∧ n₁ < n₂ :=
  crl_number_strictly_increases regenWorld1 regenWorld2 ⟨none, 0, none⟩ ['X'] ['Y']
    (by decide) (by decide) (by decide) (by decide)

/-- C1: for any number of requests racing on a stale cache at one instant,
in any interleaving of their lock-serialized read checks and critical
sections that lets every request finish, the credential loader and the
encoding primitive run exactly once, and every request returns the same
artifact bytes with the same number — the one installed by the single
rebuild; no request observes anything else (in particular, nothing
half-built). -/
theorem single_flight {C : Type} (w : World C) (n : Nat) (hn : 0 < n)
    (σ₀ : Sys n) (evs : List (Event n))
    (hstale : isCacheValid σ₀.cache w.now = false)
    (hphases : ∀ i, σ₀.phases i = .start)
    (hl0 : σ₀.loaderCalls = 0) (he0 : σ₀.encodeCalls = 0)
    (creds : C) (hc : w.loadCertAndKeyRes = .ok creds)
    (entries : List RevokedCert) (wn : Nat)
    (hr : loadRevokedCertificates w.registry = .ok (entries, wn))
    (B : Str)
    (he : w.createRevocationList entries w.now (w.now + cacheDurationSecs) creds = .ok B)
    (hdone : ∀ i, ((run w σ₀ evs).phases i).isDone = true) :
    (run w σ₀ evs).loaderCalls = 1 ∧ (run w σ₀ evs).encodeCalls = 1 ∧
      ∀ i, (run w σ₀ evs).phases i = .done (.ok (B, w.now)) := by
  have hinv : SFInv w σ₀ B (run w σ₀ evs) :=
    sfInv_run w σ₀ B creds entries wn hstale hc hr he evs σ₀
      (.inl ⟨rfl, rfl, hl0, he0, fun i => Or.inl (hphases i)⟩)
  rcases hinv with ⟨_, _, _, _, hph⟩ | ⟨_, hl, hen, hph⟩
  · exfalso
    have hd := hdone ⟨0, hn⟩
    rcases hph ⟨0, hn⟩ with h0 | h0 <;> rw [h0] at hd <;> exact Bool.noConfusion hd
  · refine ⟨hl, hen, fun i => ?_⟩
    have hd := hdone i
    rcases hph i with h0 | h0 | h0
    · rw [h0] at hd
      exact absurd hd (by decide)
    · rw [h0] at hd
      exact absurd hd (by decide)
    · exact h0

/-- Concrete system for the C1 witness: two requests, both read-checking
before either enters the critical section. -/
def sfWorld : World Unit :=
  ⟨1000, .ok (), .notExist, fun _ _ _ _ => .ok ['X'], ⟨[], none, none⟩⟩

def sfInit : Sys 2 := ⟨⟨none, 0, none⟩, ⟨[], none, none⟩, fun _ => .start, 0, 0⟩

def sfEvents : List (Event 2) :=
  [.readCheck 0, .readCheck 1, .critEnter 0, .critEnter 1]

theorem single_flight_witness :
    (run sfWorld sfInit sfEvents).loaderCalls = 1 ∧
    (run sfWorld sfInit sfEvents).encodeCalls = 1 ∧
    ∀ i, (run sfWorld sfInit sfEvents).phases i = .done (.ok (['X'], 1000)) :=
  single_flight sfWorld 2 (by decide) sfInit sfEvents (by decide) (fun i => rfl) rfl rfl
    () rfl [] 0 rfl ['X'] rfl (by decide)

/-- The cache directory of the order-dependence counterexample: the
distinct file names `crl-07.der` and `crl-7.der` both parse to number 7,
and each has a fresh metadata file. -/
def dupFs : List (Str × Str) :=
  [(derFileName ['0', '7'], ['B']), (metaFileName ['0', '7'], "100\n".data),
    (derFileName ['7'], ['A']), (metaFileName ['7'], "100\n".data)]

/-- The same directory scanned in the order os.ReadDir yields
(lexicographic by name). -/
def dupWorldA : LoadWorld :=
  ⟨none, [⟨derFileName ['0', '7'], false⟩, ⟨metaFileName ['0', '7'], false⟩,
    ⟨derFileName ['7'], false⟩, ⟨metaFileName ['7'], false⟩], dupFs, 200⟩

/-- The same directory scanned in the reverse order. -/
def dupWorldB : LoadWorld :=
  ⟨none, [⟨derFileName ['7'], false⟩, ⟨metaFileName ['7'], false⟩,
    ⟨derFileName ['0', '7'], false⟩, ⟨metaFileName ['0', '7'], false⟩], dupFs, 200⟩

/-- C4 counterexample: recovery is NOT independent of the order in which
directory entries are scanned.  Over one and the same cache directory,
holding two qualifying pairs whose file names parse to the same greatest
number 7, the scan order decides which payload is loaded: the loop's
`number > latestNumber` guard is strict, so the first of the tied
entries wins. -/
theorem loadCachedCRL_order_dependent :
    loadCachedCRL dupWorldA ⟨none, 0, none⟩ = ⟨some ['B'], 100, some 7⟩ ∧
    loadCachedCRL dupWorldB ⟨none, 0, none⟩ = ⟨some ['A'], 100, some 7⟩ ∧
    loadCachedCRL dupWorldA ⟨none, 0, none⟩ ≠ loadCachedCRL dupWorldB ⟨none, 0, none⟩ := by
  refine ⟨?_, ?_, ?_⟩ <;> decide

/-- C4 as amended: recovery either leaves the cache untouched, or loads
the payload of a qualifying pair — `crl-<number>.der` with parseable
number, readable and parseable metadata, timestamp within one hour —
whose number is greatest among all qualifying pairs; a pair with
unreadable or unparsable metadata or an unparsable number is skipped
without error, a stale pair is never selected even with the greatest
number, and if no pair qualifies the cache stays exactly as it was.
When several qualifying pairs parse to the same greatest number, the
scan order decides among them (os.ReadDir makes it lexicographic by
name), so selection is order-independent only up to such ties. -/
theorem loadCachedCRL_max_selection (lw : LoadWorld) (s : CRLState) :
    ((∀ e ∈ lw.entries, qualifies lw e = none) → loadCachedCRL lw s = s) ∧
    (loadCachedCRL lw s = s ∨
      ∃ e ∈ lw.entries, ∃ num ts b, qualifies lw e = some (num, ts) ∧
        fsRead lw.fs e.name = some b ∧
        loadCachedCRL lw s = ⟨some b, ts, some num⟩ ∧
        ∀ e' ∈ lw.entries, ∀ num' ts', qualifies lw e' = some (num', ts') → num' ≤ num) := by
  constructor
  · intro hall
    rcases loadCachedCRL_spec lw s with h | ⟨e, he, num, ts, b, hq, _, _, _⟩
    · exact h
    · rw [hall e he] at hq
      exact Option.noConfusion hq
  · exact loadCachedCRL_spec lw s

theorem loadCachedCRL_max_selection_witness :
    loadCachedCRL ⟨none, [], [], 0⟩ ⟨none, 0, none⟩ = ⟨none, 0, none⟩ :=
  (loadCachedCRL_max_selection ⟨none, [], [], 0⟩ ⟨none, 0, none⟩).1 (by simp)

/-- Credential collaborators for the C8 counterexample: PKCS#8 parses
but yields a key with no signing capability (as a PKCS#8 X25519 key
does in Go, where *ecdh.PrivateKey does not implement crypto.Signer),
while PKCS#1 would parse to a signing key. -/
def credW : CredWorld Unit Nat where
  readFile := fun _ => .ok []
  pemDecode := fun _ => some []
  parseCertificate := fun _ => .ok ()
  parsePKCS8 := fun _ => .ok 0
  parsePKCS1 := fun _ => .ok 1
  parseEC := fun _ => .error "ec"
  isSigner := fun k => decide (k = 1)

/-- C8 counterexample: the claim says the first decoding that parses
successfully AND exposes a signing capability is accepted — here that
is the PKCS#1 key 1 — but loadCertAndKey stops at the first decoding
that merely parses (PKCS#8, yielding the non-signer 0) and fails the
whole load with the crypto.Signer error instead of trying PKCS#1. -/
theorem loadCertAndKey_not_first_signing :
    specFirstSigningKey credW [] = some 1 ∧
    loadCertAndKey credW [] [] = .error "key does not implement crypto.Signer" := by
  constructor <;> rfl

/-- C8 as amended: loadCertAndKey attempts up to three decodings in
order — PKCS#8, then PKCS#1 (RSA), then EC — and keeps the FIRST that
parses successfully; the signing-capability check is applied once, to
that kept result, and its failure aborts without trying later formats;
if all three decodings fail, the returned error wraps the last (EC)
decoder's error rather than describing all attempted formats. -/
theorem loadCertAndKey_first_parse_then_check {Cert Key : Type}
    (w : CredWorld Cert Key) (crtFile keyFile certData certDer keyData keyDer : Str)
    (caCert : Cert)
    (h1 : w.readFile crtFile = .ok certData)
    (h2 : w.pemDecode certData = some certDer)
    (h3 : w.parseCertificate certDer = .ok caCert)
    (h4 : w.readFile keyFile = .ok keyData)
    (h5 : w.pemDecode keyData = some keyDer) :
    (∀ k, w.parsePKCS8 keyDer = .ok k →
      loadCertAndKey w crtFile keyFile =
        if w.isSigner k then .ok (caCert, k)
        else .error "key does not implement crypto.Signer") ∧
    (∀ e8 k, w.parsePKCS8 keyDer = .error e8 → w.parsePKCS1 keyDer = .ok k →
      loadCertAndKey w crtFile keyFile =
        if w.isSigner k then .ok (caCert, k)
        else .error "key does not implement crypto.Signer") ∧
    (∀ e8 e1 k, w.parsePKCS8 keyDer = .error e8 → w.parsePKCS1 keyDer = .error e1 →
      w.parseEC keyDer = .ok k →
      loadCertAndKey w crtFile keyFile =
        if w.isSigner k then .ok (caCert, k)
        else .error "key does not implement crypto.Signer") ∧
    (∀ e8 e1 eEC, w.parsePKCS8 keyDer = .error e8 → w.parsePKCS1 keyDer = .error e1 →
      w.parseEC keyDer = .error eEC →
      loadCertAndKey w crtFile keyFile = .error ("parsing key: " ++ eEC)) := by
  refine ⟨fun k hk => ?_, fun e8 k h8 hk => ?_, fun e8 e1 k h8 h1' hk => ?_,
    fun e8 e1 eEC h8 h1' hEC => ?_⟩ <;>
    simp [loadCertAndKey, h1, h2, h3, h4, h5, *]

theorem loadCertAndKey_first_parse_then_check_witness :
    loadCertAndKey credW [] [] = .error "key does not implement crypto.Signer" := by
  have h := (loadCertAndKey_first_parse_then_check credW [] [] [] [] [] [] ()
    rfl rfl rfl rfl rfl).1 0 rfl
  simpa using h

/-- C5: persist-then-recover is a round trip: saving a cached artifact
(bytes, number `n`, generation time `t`) into an empty store succeeds,
and running startup recovery over the resulting directory within the
freshness window restores the same bytes, the same number and the same
seconds-precision timestamp.  loadCachedCRL takes neither a credential
loader nor an encoding primitive among its inputs, so recovery cannot
invoke them.  The directory entries are listed as os.ReadDir returns
them, sorted by name (`crl-<n>.der` before `crl-<n>.meta`); the range
hypothesis on `t` is the int64 range every time.Time.Unix value
satisfies. -/
theorem save_load_roundtrip (bytes : Str) (n t now : Int) (s₀ : CRLState)
    (htr : int64Min ≤ t ∧ t ≤ int64Max)
    (hfw : now - t < cacheDurationSecs) :
    (saveCachedCRL ⟨some bytes, t, some n⟩ ⟨[], none, none⟩).2 = none ∧
    loadCachedCRL
      ⟨none,
        [⟨derFileName (intToDecimal n), false⟩, ⟨metaFileName (intToDecimal n), false⟩],
        (saveCachedCRL ⟨some bytes, t, some n⟩ ⟨[], none, none⟩).1.fs, now⟩ s₀ =
      ⟨some bytes, t, some n⟩ := by
  have hne := derFileName_ne_metaFileName (intToDecimal n)
  have hfs : (saveCachedCRL ⟨some bytes, t, some n⟩ ⟨[], none, none⟩).1.fs =
      [(derFileName (intToDecimal n), bytes),
        (metaFileName (intToDecimal n), intToDecimal t ++ ['\n'])] := by
    simp [saveCachedCRL, fsWrite, hne]
  have hreadmeta : fsRead
      ((saveCachedCRL ⟨some bytes, t, some n⟩ ⟨[], none, none⟩).1.fs)
      (metaFileName (intToDecimal n)) = some (intToDecimal t ++ ['\n']) := by
    rw [hfs, fsRead_cons_ne hne, fsRead_cons_eq]
  have hreadder : fsRead
      ((saveCachedCRL ⟨some bytes, t, some n⟩ ⟨[], none, none⟩).1.fs)
      (derFileName (intToDecimal n)) = some bytes := by
    rw [hfs, fsRead_cons_eq]
  have hct : candTime
      ⟨none,
        [⟨derFileName (intToDecimal n), false⟩, ⟨metaFileName (intToDecimal n), false⟩],
        (saveCachedCRL ⟨some bytes, t, some n⟩ ⟨[], none, none⟩).1.fs, now⟩
      (intToDecimal n) = some t := by
    simp [candTime, hreadmeta, goTrimSpace_meta, goParseInt64_intToDecimal t htr, hfw]
  have h1 : scanEntry
      ⟨none,
        [⟨derFileName (intToDecimal n), false⟩, ⟨metaFileName (intToDecimal n), false⟩],
        (saveCachedCRL ⟨some bytes, t, some n⟩ ⟨[], none, none⟩).1.fs, now⟩
      (none, 0, []) ⟨derFileName (intToDecimal n), false⟩ =
      (some n, t, derFileName (intToDecimal n)) := by
    simp [scanEntry, candNumber_der, hct]
  have h2 : scanEntry
      ⟨none,
        [⟨derFileName (intToDecimal n), false⟩, ⟨metaFileName (intToDecimal n), false⟩],
        (saveCachedCRL ⟨some bytes, t, some n⟩ ⟨[], none, none⟩).1.fs, now⟩
      (some n, t, derFileName (intToDecimal n)) ⟨metaFileName (intToDecimal n), false⟩ =
      (some n, t, derFileName (intToDecimal n)) := by
    simp [scanEntry, candNumber_meta]
  refine ⟨rfl, ?_⟩
  simp [loadCachedCRL, h1, h2, derFileName_ne_nil, hreadder]

theorem save_load_roundtrip_witness :
    (saveCachedCRL ⟨some ['X'], 100, some 5⟩ ⟨[], none, none⟩).2 = none ∧
    loadCachedCRL
      ⟨none,
        [⟨derFileName (intToDecimal 5), false⟩, ⟨metaFileName (intToDecimal 5), false⟩],
        (saveCachedCRL ⟨some ['X'], 100, some 5⟩ ⟨[], none, none⟩).1.fs, 200⟩
      ⟨none, 0, none⟩ = ⟨some ['X'], 100, some 5⟩ :=
  save_load_roundtrip ['X'] 5 100 200 ⟨none, 0, none⟩ (by decide) (by decide)

end CRL
